import Mathlib

/-!
Verification development for the libics core (libics_top.c, libics_binary.c,
libics_gzip.c).  The C functions relevant to the checked claims are embedded
as executable Lean definitions below; machine integers are modelled as `Nat`
with explicit masking where the C code masks, byte buffers as `List Nat`,
and fallible operations return an `Ics_Error` code exactly as the source
does.  Constants and helpers that live in headers not shipped with the
source tree (libics.h / libics_intern.h) are modelled from the
specification and marked as such.
-/

set_option maxRecDepth 10000

/-- Error codes returned by the library (subset of the `Ics_Error` enum in
libics.h that is used by the embedded functions). -/
inductive Ics_Error where
  | Ok
  | FSizeConflict
  | OutputNotFilled
  | Alloc
  | BitsVsSizeConfl
  | BlockNotAllowed
  | BufferTooSmall
  | CompressionProblem
  | CorruptedStream
  | DecompressionProblem
  | DuplicateData
  | EndOfStream
  | FCloseIds
  | FCopyIds
  | FOpenIds
  | FReadIds
  | FTempMoveIcs
  | FWriteIcs
  | FWriteIds
  | IllegalROI
  | IllParameter
  | MissingData
  | NoLayout
  | NoScilType
  | NotValidAction
  | TooManyDims
  | UnknownCompression
  | WrongZlibVersion
deriving DecidableEq, Repr

/-- File modes of a dataset handle (`Ics_FileMode`). -/
inductive Ics_FileMode where
  | read
  | write
  | update
deriving DecidableEq, Repr

/-- Sample kinds (`Ics_DataType`). -/
inductive Ics_DataType where
  | uint8
  | sint8
  | uint16
  | sint16
  | uint32
  | sint32
  | real32
  | real64
  | complex32
  | complex64
  | unknown
deriving DecidableEq, Repr

/-- Compression methods (`Ics_Compression`). -/
inductive Ics_Compression where
  | uncompressed
  | gzip
  | compress
deriving DecidableEq, Repr

/-- Modelled from the spec: `ICS_MAXDIM` (libics.h is not in the source
tree); the spec fixes MAX_DIM conventionally at 10. -/
def ICS_MAXDIM : Nat := 10

/-- Modelled from the spec: `ICS_MAX_IMEL_SIZE` (libics.h is not in the
source tree); the byte-order vectors are arrays of this length and the
largest sample width is 16 (complex64), so the bound is 32 as in upstream
libics headers. -/
def ICS_MAX_IMEL_SIZE : Nat := 32

/-- Modelled from the spec: `ICS_BUF_SIZE` (libics_intern.h is not in the
source tree), the size of the scratch buffers used by the gzip codec. -/
def ICS_BUF_SIZE : Nat := 16384

/-- Modelled from the spec: `IcsGetDataTypeSize`, the width-in-bytes table
of §3 of the spec (the function itself is not under src/). -/
def IcsGetDataTypeSize : Ics_DataType → Nat
  | .uint8 => 1
  | .sint8 => 1
  | .uint16 => 2
  | .sint16 => 2
  | .uint32 => 4
  | .sint32 => 4
  | .real32 => 4
  | .real64 => 8
  | .complex32 => 8
  | .complex64 => 16
  | .unknown => 0

/-- One dimension descriptor (`Ics_DataRepresentation`): the fields that the
embedded operations touch. -/
structure Ics_DimPar where
  Size : Nat := 0
  Order : String := ""
  Label : String := ""
deriving DecidableEq, Repr

instance : Inhabited Ics_DimPar := ⟨{}⟩

/-- The imel descriptor (`Ics_ImelRepresentation`): the fields that the
embedded operations touch. -/
structure Ics_ImelPar where
  DataType : Ics_DataType := .unknown
  SigBits : Nat := 0
deriving DecidableEq, Repr

/-- The dataset record (`ICS` / `Ics_Header`): the fields that the embedded
operations touch.  The attached data buffer is the byte list itself (the C
code stores the caller's pointer). -/
structure Ics where
  FileMode : Ics_FileMode := .write
  Version : Nat := 1
  Filename : String := ""
  SrcFile : String := ""
  SrcOffset : Nat := 0
  Dimensions : Nat := 0
  Dim : List Ics_DimPar := []
  Imel : Ics_ImelPar := {}
  ByteOrder : List Nat := []
  Compression : Ics_Compression := .uncompressed
  Data : Option (List Nat) := none
  DataLength : Nat := 0
  DataStrides : Option (List Nat) := none
  BlockRead : Bool := false
deriving DecidableEq, Repr

/-- `IcsGetBytesPerSample` (libics_intern): the byte width of one sample. -/
def IcsGetBytesPerSample (ics : Ics) : Nat :=
  IcsGetDataTypeSize ics.Imel.DataType

/-- `IcsGetImageSize` (libics_top.c): the image size in pixels. -/
def IcsGetImageSize (ics : Ics) : Nat :=
  if ics.Dimensions = 0 then 0
  else (List.range ics.Dimensions).foldl
    (fun size i => size * (ics.Dim.getD i default).Size) 1

/-- `IcsGetDataSize` (libics_top.c): the image size in bytes. -/
def IcsGetDataSize (ics : Ics) : Nat :=
  if ics.Dimensions = 0 then 0
  else IcsGetImageSize ics * IcsGetBytesPerSample ics

/-- `IcsGetImelSize` (libics_top.c): the pixel size in bytes. -/
def IcsGetImelSize (ics : Ics) : Nat :=
  IcsGetBytesPerSample ics

/- ------------------------------------------------------------------ -/
/- Byte-order engine (libics_binary.c)                                 -/
/- ------------------------------------------------------------------ -/

/-- `IcsFillByteOrder` (libics_binary.c): fill the byte order array with the
machine's byte order; the host endianness probe is a parameter
(`littleEndian`).  A width beyond `ICS_MAX_IMEL_SIZE` is clamped. -/
def IcsFillByteOrder (bytes : Nat) (littleEndian : Bool) : List Nat :=
  let b := if bytes > ICS_MAX_IMEL_SIZE then ICS_MAX_IMEL_SIZE else bytes
  if littleEndian then (List.range b).map (fun i => 1 + i)
  else (List.range b).map (fun i => b - i)

/-- One iteration of the per-imel loop of `IcsReorderIds`: the scratch
`imel[i] = buf[srcByteOrder[i]-1]` reads (relative to the imel base, taken
from the unmodified input buffer, as in the C code where the scratch is
filled before any write of the imel and later imels are still untouched)
followed by the `buf[dstByteOrder[i]-1] = imel[i]` writes.  A read past the
end of the buffer yields 0. -/
def reorderImel (buf : List Nat) (base : Nat) (src dst : List Nat)
    (bytes : Nat) : List Nat :=
  (List.range bytes).foldl
    (fun acc i => acc.set (dst.getD i 0 - 1) (buf.getD (base + (src.getD i 0 - 1)) 0))
    ((buf.drop base).take bytes)

/-- The whole-buffer rewrite loop of `IcsReorderIds`: every one of the
`imels = length / bytes` imels is rewritten in place. -/
def reorderBody (buf src dst : List Nat) (bytes : Nat) : List Nat :=
  ((List.range (buf.length / bytes)).map
    (fun j => reorderImel buf (j * bytes) src dst bytes)).flatten

/-- The `different` accumulator of `IcsReorderIds`: OR over `i < bytes` of
`srcByteOrder[i] != dstByteOrder[i]` against the machine order. -/
def reorderDifferent (srcByteOrder : List Nat) (bytes : Nat)
    (littleEndian : Bool) : Bool :=
  (List.range bytes).any
    (fun i => srcByteOrder.getD i 0 ≠ (IcsFillByteOrder bytes littleEndian).getD i 0)

/-- The `empty` accumulator of `IcsReorderIds`: OR over `i < bytes` of
`!srcByteOrder[i]`. -/
def reorderEmpty (srcByteOrder : List Nat) (bytes : Nat) : Bool :=
  (List.range bytes).any (fun i => srcByteOrder.getD i 0 = 0)

/-- `IcsReorderIds` (libics_binary.c): reorder the bytes of each sample as
specified in the source byte-order array, into host order.  Returns the
error code together with the (possibly rewritten) buffer. -/
def IcsReorderIds (buf : List Nat) (srcByteOrder : List Nat) (bytes : Nat)
    (littleEndian : Bool) : Ics_Error × List Nat :=
  if buf.length % bytes ≠ 0 then (.BitsVsSizeConfl, buf)
  else if !reorderDifferent srcByteOrder bytes littleEndian ||
      reorderEmpty srcByteOrder bytes then (.Ok, buf)
  else
    (.Ok, reorderBody buf srcByteOrder
      (IcsFillByteOrder bytes littleEndian) bytes)

/-- The identity byte-order vector `[1, 2, ..., width]`. -/
def idByteOrder (bytes : Nat) : List Nat :=
  (List.range bytes).map (fun i => 1 + i)

example :
    IcsReorderIds [10, 20, 30, 40] [2, 1] 2 true = (.Ok, [20, 10, 40, 30]) := by
  decide

example :
    IcsReorderIds [10, 20, 30, 40] [1, 2] 2 true = (.Ok, [10, 20, 30, 40]) := by
  decide

/- ------------------------------------------------------------------ -/
/- Mode-string parsing of IcsOpen (libics_top.c)                       -/
/- ------------------------------------------------------------------ -/

/-- The flag state accumulated by the mode-string loop of `IcsOpen`. -/
structure OpenModeState where
  version : Nat := 0
  forceName : Bool := false
  forceLocale : Bool := true
  reading : Bool := false
  writing : Bool := false
deriving DecidableEq, Repr

/-- The mode-string loop of `IcsOpen` (libics_top.c, lines 95-124),
transcribed character by character including the guards of each `case`. -/
def icsParseMode : List Char → OpenModeState → Except Ics_Error OpenModeState
  | [], st => .ok st
  | c :: rest, st =>
    match c with
    | 'r' =>
      if st.reading then .error .IllParameter
      else icsParseMode rest { st with reading := true }
    | 'w' =>
      if st.writing then .error .IllParameter
      else icsParseMode rest { st with writing := true }
    | 'f' =>
      if st.forceName then .error .IllParameter
      else icsParseMode rest { st with forceName := true }
    | 'l' =>
      if st.forceLocale then .error .IllParameter
      else icsParseMode rest { st with forceLocale := false }
    | '1' =>
      if st.version ≠ 0 then .error .IllParameter
      else icsParseMode rest { st with version := 1 }
    | '2' =>
      if st.version ≠ 0 then .error .IllParameter
      else icsParseMode rest { st with version := 2 }
    | _ => .error .IllParameter

/-- The full mode handling of `IcsOpen`: run the parse loop, then require
`reading` or `writing` (otherwise `IcsErr_IllParameter`, line 152). -/
def icsOpenModeCheck (mode : List Char) : Except Ics_Error OpenModeState :=
  match icsParseMode mode {} with
  | .error e => .error e
  | .ok st =>
    if st.reading then .ok st
    else if st.writing then .ok st
    else .error .IllParameter

/- ------------------------------------------------------------------ -/
/- IcsSetLayout (libics_top.c)                                         -/
/- ------------------------------------------------------------------ -/

/-- `ICSKEY_ORDER` (libics_top.c line 76): default order names. -/
def ICSKEY_ORDER : List String := ["x", "y", "z", "t", "probe"]

/-- `ICSKEY_LABEL` (libics_top.c line 77): default labels. -/
def ICSKEY_LABEL : List String :=
  ["x-position", "y-position", "z-position", "time", "probe"]

/-- `ICSKEY_ORDER_LENGTH` (libics_top.c line 79). -/
def ICSKEY_ORDER_LENGTH : Nat := 5

/-- The default order name installed by `IcsSetLayout` for dimension `i`:
`ICSKEY_ORDER[i]` below `ICSKEY_ORDER_LENGTH`, else the printf result
`"dim_%d"`. -/
def defaultOrderName (i : Nat) : String :=
  if i < ICSKEY_ORDER_LENGTH then ICSKEY_ORDER.getD i ""
  else "dim_" ++ toString i

/-- The default label installed by `IcsSetLayout` for dimension `i`:
`ICSKEY_LABEL[i]` below `ICSKEY_ORDER_LENGTH`, else `"dim_%d"`. -/
def defaultDimLabel (i : Nat) : String :=
  if i < ICSKEY_ORDER_LENGTH then ICSKEY_LABEL.getD i ""
  else "dim_" ++ toString i

/-- Modelled from the spec: the `ICS_FM_WD` mode guard of libics_intern.h
(not under src/); per §4.6 the data setters are valid in write mode only. -/
def fmWdOk (m : Ics_FileMode) : Bool := m = .write

/-- Modelled from the spec: the `ICS_FM_RD` mode guard of libics_intern.h
(not under src/); per §4.6 the data getters are valid in read and update
modes. -/
def fmRdOk (m : Ics_FileMode) : Bool := m ≠ .write

/-- `IcsSetLayout` (libics_top.c, lines 238-266): store sample kind,
dimension count and sizes; install the default order names and labels. -/
def IcsSetLayout (ics : Ics) (dt : Ics_DataType) (nDims : Nat)
    (dims : List Nat) : Ics_Error × Ics :=
  if ¬ fmWdOk ics.FileMode then (.NotValidAction, ics)
  else if nDims > ICS_MAXDIM then (.TooManyDims, ics)
  else
    let newDim := (List.range ICS_MAXDIM).map (fun i =>
      if i < nDims then
        { Size := dims.getD i 0
          Order := defaultOrderName i
          Label := defaultDimLabel i : Ics_DimPar }
      else ics.Dim.getD i default)
    (.Ok, { ics with
              Imel := { ics.Imel with DataType := dt }
              Dim := newDim
              Dimensions := nDims })

/- ------------------------------------------------------------------ -/
/- IcsSetData (libics_top.c)                                           -/
/- ------------------------------------------------------------------ -/

/-- `IcsSetData` (libics_top.c, lines 621-640): attach a caller buffer as
the data source of a pending write.  Returns the error code and the updated
handle. -/
def IcsSetData (ics : Ics) (src : List Nat) (n : Nat) : Ics_Error × Ics :=
  if ¬ fmWdOk ics.FileMode then (.NotValidAction, ics)
  else if ics.SrcFile ≠ "" then (.DuplicateData, ics)
  else if ics.Data ≠ none then (.DuplicateData, ics)
  else if ics.Dimensions = 0 then (.NoLayout, ics)
  else
    let error := if n ≠ IcsGetDataSize ics then Ics_Error.FSizeConflict
                 else Ics_Error.Ok
    (error, { ics with Data := some src, DataLength := n, DataStrides := none })

/- ------------------------------------------------------------------ -/
/- Gzip codec (libics_gzip.c)                                          -/
/- ------------------------------------------------------------------ -/

/-- `icsPutLong` (libics_gzip.c, lines 87-95): the four bytes of `x` in LSB
order. -/
def icsPutLong (x : Nat) : List Nat :=
  [x &&& 0xFF, (x >>> 8) &&& 0xFF, (x >>> 16) &&& 0xFF, (x >>> 24) &&& 0xFF]

/-- `icsGetLong` (libics_gzip.c, lines 99-106): read four bytes in LSB
order. -/
def icsGetLong (bytes : List Nat) : Nat :=
  bytes.getD 0 0 + (bytes.getD 1 0) <<< 8 + (bytes.getD 2 0) <<< 16 +
    (bytes.getD 3 0) <<< 24

/-- Modelled from the spec: one bit-iteration of the reflected CRC-32
polynomial 0xEDB88320 (zlib's `crc32` is external to the source tree; the
spec's §4.3 names the algorithm as CRC-32 of the uncompressed stream). -/
def crc32Bit (x : Nat) : Nat :=
  if x % 2 = 1 then (x >>> 1) ^^^ 0xEDB88320 else x >>> 1

/-- Modelled from the spec: the CRC-32 table entry for one byte (8 bit
iterations). -/
def crc32Byte (x : Nat) : Nat :=
  crc32Bit (crc32Bit (crc32Bit (crc32Bit (crc32Bit (crc32Bit (crc32Bit (crc32Bit x)))))))

/-- Modelled from the spec: the CRC-32 accumulator step for one data
byte. -/
def crc32Step (crc b : Nat) : Nat :=
  (crc >>> 8) ^^^ crc32Byte ((crc ^^^ b) &&& 0xFF)

/-- Modelled from the spec: zlib's incremental `crc32(crc, buf, len)`:
un-invert the running value, fold the bytes, re-invert.
`zlibCrc32 0 buf` is the CRC-32 of `buf` (zlib's `crc32(0, NULL, 0)` is 0
and `zlibCrc32 c [] = c`). -/
def zlibCrc32 (crc : Nat) (buf : List Nat) : Nat :=
  (buf.foldl crc32Step (crc ^^^ 0xFFFFFFFF)) ^^^ 0xFFFFFFFF

/-- The minimal gzip envelope written by `IcsWriteZip` (libics_gzip.c,
lines 159-160): magic bytes, deflate method byte, zero flags, six zero
bytes, then the host OS code. -/
def gzipHeader (osCode : Nat) : List Nat :=
  [0x1F, 0x8B, 8, 0, 0, 0, 0, 0, 0, osCode]

/-- The chunked input loop of `IcsWriteZip` (libics_gzip.c, lines 163-185):
the input is consumed in chunks of up to `ICS_BUF_SIZE`, the running CRC is
updated over each chunk before deflation, and `totalCount` accumulates the
consumed byte count.  Returns the final `(crc, totalCount)` pair. -/
def zipCrcLoop (crc count : Nat) (rest : List Nat) : Nat × Nat :=
  let chunk := rest.take ICS_BUF_SIZE
  let crc2 := zlibCrc32 crc chunk
  let count2 := count + chunk.length
  if h : (rest.drop ICS_BUF_SIZE).isEmpty then (crc2, count2)
  else zipCrcLoop crc2 count2 (rest.drop ICS_BUF_SIZE)
termination_by rest.length
decreasing_by
  have h1 : (rest.drop ICS_BUF_SIZE).length ≠ 0 := fun h0 =>
    h (List.isEmpty_iff.mpr (List.length_eq_zero.mp h0))
  simp only [List.length_drop, ICS_BUF_SIZE] at h1 ⊢
  omega

/-- `IcsWriteZip` (libics_gzip.c, lines 117-206): the byte sequence the
function writes to the file on a successful run.  The deflate compressor is
zlib (external); it is a parameter, applied to the whole input as the
chunked `deflate`/`Z_FINISH` loop does.  After the compressed stream the
function writes the running CRC and `totalCount & 0xFFFFFFFF`, each through
`icsPutLong`. -/
def IcsWriteZip (deflate : List Nat → List Nat) (inBuf : List Nat)
    (osCode : Nat) : List Nat :=
  let r := zipCrcLoop 0 0 inBuf
  gzipHeader osCode ++ deflate inBuf ++ icsPutLong r.1 ++
    icsPutLong (r.2 &&& 0xFFFFFFFF)

/-- The zlib status values that the tail of `IcsReadZipBlock` inspects. -/
inductive ZStatus where
  | zOk
  | zStreamEnd
  | zBufError
  | zStreamError
deriving DecidableEq, Repr

/-- The stream-end and error-reporting tail of `IcsReadZipBlock`
(libics_gzip.c, lines 530-549): on `Z_STREAM_END` the next eight file bytes
are read as trailer via `icsGetLong` (CRC-32 then length) and compared with
the accumulated CRC and `stream.total_out`; a mismatch of either turns the
status into `Z_STREAM_ERROR`.  `Z_STREAM_ERROR` maps to `CorruptedStream`;
stream end with a short block maps to `EndOfStream`; `Z_OK` to `Ok`; any
other status to `DecompressionProblem`. -/
def icsReadZipFinish (err : ZStatus) (fileTail : List Nat) (zlibCRC : Nat)
    (totalOut : Nat) (prevOut : Nat) (len : Nat) : Ics_Error :=
  let err2 :=
    if err = .zStreamEnd then
      if icsGetLong fileTail ≠ zlibCRC then ZStatus.zStreamError
      else if icsGetLong (fileTail.drop 4) ≠ totalOut then ZStatus.zStreamError
      else ZStatus.zStreamEnd
    else err
  if err2 = .zStreamError then .CorruptedStream
  else if err2 = .zStreamEnd then
    if len ≠ totalOut - prevOut then .EndOfStream else .Ok
  else if err2 = .zOk then .Ok
  else .DecompressionProblem

/- ------------------------------------------------------------------ -/
/- The update transaction of IcsClose (libics_top.c)                   -/
/- ------------------------------------------------------------------ -/

/-- A file system: a map from path to file contents. -/
def FS : Type := String → Option (List Nat)

/-- Contents at a path. -/
def fsGet (fs : FS) (p : String) : Option (List Nat) := fs p

/-- Create or truncate-and-write a file. -/
def fsSet (fs : FS) (p : String) (v : List Nat) : FS :=
  fun q => if q = p then some v else fs q

/-- `remove(p)`: delete a file; removing a missing file is a no-op (the C
code ignores the return value of `remove`). -/
def fsRemove (fs : FS) (p : String) : FS :=
  fun q => if q = p then none else fs q

/-- `rename(a, b)`: if `a` exists move it over `b`; if `a` is missing the
rename fails and the file system is unchanged. -/
def fsRename (fs : FS) (a b : String) : FS :=
  match fs a with
  | none => fs
  | some v => fsSet (fsRemove fs a) b v

/-- Whether `rename(a, b)` succeeds (the C code checks the return value of
the first rename only). -/
def fsRenameOk (fs : FS) (a : String) : Bool := (fs a).isSome

/-- Failure injection for the steps of the update transaction that involve
collaborators outside src/ (`IcsWriteIcs`) or I/O faults.  `headerBytes` is
the header the rewrite produces on success; a failing step leaves the
optional partial contents behind. -/
structure UpdateEnv where
  writeIcsFails : Bool := false
  writeIcsLeftover : Option (List Nat) := none
  headerBytes : List Nat := []
  copyFails : Bool := false
  copyLeftover : List Nat := []
deriving Repr

/-- Modelled from the spec: `IcsWriteIcs` (the header emitter is not under
src/); §4.5 step (3): rewrite the header to the original path.  On success
the file at `path` holds the new header; on an injected failure an optional
partial output may be left at `path`. -/
def icsWriteIcsStep (env : UpdateEnv) (fs : FS) (path : String) :
    Ics_Error × FS :=
  if env.writeIcsFails then
    (.FWriteIcs,
     match env.writeIcsLeftover with
     | none => fs
     | some leftover => fsSet fs path leftover)
  else (.Ok, fsSet fs path env.headerBytes)

/-- `IcsCopyIds` (libics_binary.c, lines 203-255): append the contents of
`infilename` from `inoffset` onward to `outfilename`; any I/O fault yields
`IcsErr_FCopyIds` (injected through `env.copyFails`, leaving the partial
append behind). -/
def icsCopyIdsStep (env : UpdateEnv) (fs : FS) (infilename : String)
    (inoffset : Nat) (outfilename : String) : Ics_Error × FS :=
  match fsGet fs infilename with
  | none => (.FCopyIds, fs)
  | some src =>
    if env.copyFails then
      (.FCopyIds,
       fsSet fs outfilename
         ((fsGet fs outfilename).getD [] ++ env.copyLeftover))
    else
      (.Ok,
       fsSet fs outfilename
         ((fsGet fs outfilename).getD [] ++ src.drop inoffset))

/-- The update branch of `IcsClose` (libics_top.c, lines 176-207) for a
handle with no read in flight (`BlockRead = false`): decide `needcopy`,
rename the original to its `.tmp` sibling, rewrite the header, copy the
body back from the temporary, delete the temporary on success, and on any
error remove the partial output and rename the temporary back.  The
`filename` local of the C code is only initialised when `needcopy` holds
(modelled as an `Option`). -/
def icsCloseUpdate (ics : Ics) (env : UpdateEnv) (fs0 : FS) :
    Ics_Error × FS :=
  let needcopy := ics.Version = 2 ∧ ics.SrcFile = ics.Filename
  let tmpname : Option String :=
    if needcopy then some (ics.Filename ++ ".tmp") else none
  let r1 : Ics_Error × FS :=
    if needcopy then
      if fsRenameOk fs0 ics.Filename then
        (Ics_Error.Ok, fsRename fs0 ics.Filename (ics.Filename ++ ".tmp"))
      else (Ics_Error.FTempMoveIcs, fs0)
    else (Ics_Error.Ok, fs0)
  let r2 : Ics_Error × FS :=
    if r1.1 = .Ok then icsWriteIcsStep env r1.2 ics.Filename
    else r1
  let r3 : Ics_Error × FS :=
    if r2.1 = .Ok ∧ needcopy then
      let rc := icsCopyIdsStep env r2.2 (tmpname.getD "") ics.SrcOffset
        ics.Filename
      if rc.1 = .Ok then (rc.1, fsRemove rc.2 (tmpname.getD ""))
      else rc
    else r2
  if r3.1 ≠ .Ok then
    (r3.1, fsRename (fsRemove r3.2 ics.Filename) (tmpname.getD "")
      ics.Filename)
  else r3

/- ------------------------------------------------------------------ -/
/- Streamed reading: IcsReadIdsBlock and the access API (libics)       -/
/- ------------------------------------------------------------------ -/

/-- The state of an open IDS read stream: the byte sequence of the
(uncompressed) data body and the current position. -/
structure RState where
  data : List Nat
  pos : Nat
deriving DecidableEq, Repr

/-- The stream operations a call performs, recorded as a trace. -/
inductive StreamOp where
  | openIds
  | readBlock (n : Nat)
  | skipBlock (n : Nat)
  | closeIds
deriving DecidableEq, Repr

/-- `IcsReadIdsBlock` (libics_binary.c, lines 446-485) on an uncompressed
stream: read `n` bytes (a short read is `EndOfStream` and skips the
byte-order pass, `ICSCX`), then reorder the delivered bytes with
`IcsReorderIds`.  Returns the error, the bytes delivered to `dest`, and the
new stream state. -/
def IcsReadIdsBlockM (ics : Ics) (littleEndian : Bool) (st : RState)
    (n : Nat) : Ics_Error × List Nat × RState :=
  let avail := st.data.length - st.pos
  if n ≤ avail then
    let chunk := (st.data.drop st.pos).take n
    let (e, chunk2) := IcsReorderIds chunk ics.ByteOrder
      (IcsGetBytesPerSample ics) littleEndian
    (e, chunk2, { st with pos := st.pos + n })
  else
    (.EndOfStream, (st.data.drop st.pos).take n, { st with pos := st.data.length })

/-- `IcsSkipIdsBlock` (libics_binary.c): a forward `SEEK_CUR` seek. -/
def IcsSkipIdsBlockM (st : RState) (n : Nat) : Ics_Error × RState :=
  (.Ok, { st with pos := st.pos + n })

/-- `ceil(size / sampling)` as computed by the C code:
`(size + sampling - 1) / sampling`. -/
def icsCeilDiv (size sampling : Nat) : Nat := (size + sampling - 1) / sampling

/-- The `for (i = 1; i < p; i++)` odometer at the bottom of the read loops
of `IcsGetROIData` and `IcsGetDataWithStrides`: advance `curPos[i]` by
`sampling[i]`, reset to `offset[i]` and carry while the new value reaches
`offset[i] + size[i]`.  Called with `fuel = p - i`; exhausted fuel means
`i` reached `p`, i.e. the traversal is done.  Returns the new position and
the done flag. -/
def roiNextPos (offset size sampling : List Nat) :
    Nat → List Nat → Nat → List Nat × Bool
  | 0, pos, _ => (pos, true)
  | fuel + 1, pos, i =>
    let v := pos.getD i 0 + sampling.getD i 0
    if v < offset.getD i 0 + size.getD i 0 then (pos.set i v, false)
    else roiNextPos offset size sampling fuel (pos.set i (offset.getD i 0)) (i + 1)

/-- The per-dimension imel strides of the stored array:
`stride[0] = 1`, `stride[i] = stride[i-1] * Dim[i-1].Size`. -/
def dimStrides (ics : Ics) (p : Nat) : List Nat :=
  (List.range p).map
    (fun i => (List.range i).foldl (fun a k => a * (ics.Dim.getD k default).Size) 1)

/-- The two read loops of `IcsGetROIData` (libics_top.c, lines 441-505),
which differ only in how a read line reaches `dest`; `sub` selects the
`sampling[0] > 1` branch.  Each iteration computes the byte location of the
current line, skips forward if needed, reads one line of `bufSize` bytes,
and delivers it.  In the `sub` branch the C code copies `imelSize` bytes
from `buf + i*imelSize` for each output sample of the line, where `i` still
holds the value `p` left behind by the `for (i = 0; i < p; i++)` loop that
computed `newLoc` (the loop-index reuse flagged in §9 of the spec).  `fuel`
bounds the number of iterations; the callers pass more fuel than the
traversal can use, so exhaustion is unreachable. -/
def roiLoop (ics : Ics) (littleEndian : Bool) (p imelSize bufSize : Nat)
    (offset size sampling stride : List Nat) (sub : Bool) :
    Nat → List Nat → Nat → RState → List Nat → List StreamOp →
    Ics_Error × List Nat × List StreamOp × RState
  | 0, _, _, st, dest, ops => (.Ok, dest, ops, st)
  | fuel + 1, curPos, curLoc, st, dest, ops =>
    let newLoc :=
      ((List.range p).foldl
        (fun a i => a + curPos.getD i 0 * stride.getD i 0) 0) * imelSize
    let skipped :=
      if curLoc < newLoc then
        ((IcsSkipIdsBlockM st (newLoc - curLoc)).2, newLoc,
         ops ++ [StreamOp.skipBlock (newLoc - curLoc)])
      else (st, curLoc, ops)
    let st1 := skipped.1
    let curLoc1 := skipped.2.1
    let ops1 := skipped.2.2
    let r := IcsReadIdsBlockM ics littleEndian st1 bufSize
    let ops2 := ops1 ++ [StreamOp.readBlock bufSize]
    if r.1 ≠ .Ok then (r.1, dest, ops2, r.2.2)
    else
      let buf := r.2.1
      let dest2 :=
        if sub then
          dest ++
            ((List.range (icsCeilDiv (size.getD 0 0) (sampling.getD 0 0))).map
              (fun _ => (buf.drop (p * imelSize)).take imelSize)).flatten
        else dest ++ buf
      let next := roiNextPos offset size sampling (p - 1) curPos 1
      if next.2 then (.Ok, dest2, ops2, r.2.2)
      else
        roiLoop ics littleEndian p imelSize bufSize offset size sampling
          stride sub fuel next.1 (curLoc1 + bufSize) r.2.2 dest2 ops2

/-- `IcsGetROIData` (libics_top.c, lines 363-512): read a rectangular,
sub-sampled region.  `data` is the byte sequence of the stored body;
`destNull` models a NULL destination pointer; the result is the error code,
the bytes delivered to the destination, and the trace of stream
operations. -/
def IcsGetROIData (ics : Ics) (littleEndian : Bool)
    (offsetPtr sizePtr samplingPtr : Option (List Nat)) (destNull : Bool)
    (n : Nat) (data : List Nat) : Ics_Error × List Nat × List StreamOp :=
  if ¬ fmRdOk ics.FileMode then (.NotValidAction, [], [])
  else if n = 0 ∨ destNull then (.Ok, [], [])
  else
    let p := ics.Dimensions
    let offset := offsetPtr.getD (List.replicate p 0)
    let size := sizePtr.getD
      ((List.range p).map
        (fun i => (ics.Dim.getD i default).Size - offset.getD i 0))
    let sampling := samplingPtr.getD (List.replicate p 1)
    if (List.range p).any (fun i =>
        sampling.getD i 0 < 1 ∨
          offset.getD i 0 + size.getD i 0 > (ics.Dim.getD i default).Size) then
      (.IllegalROI, [], [])
    else
      let imelSize := IcsGetBytesPerSample ics
      let roiSize := (List.range p).foldl
        (fun a i => a * icsCeilDiv (size.getD i 0) (sampling.getD i 0)) imelSize
      let sizeConflict := n ≠ roiSize
      if n < roiSize then (.BufferTooSmall, [], [])
      else
        let stride := dimStrides ics p
        let bufSize := imelSize * size.getD 0 0
        let curPos0 := (List.range p).map (fun i => offset.getD i 0)
        let fuel := 1 + (List.range p).foldl
          (fun a i => a * (icsCeilDiv (size.getD i 0) (sampling.getD i 0) + 1)) 1
        let r := roiLoop ics littleEndian p imelSize bufSize offset size
          sampling stride (sampling.getD 0 0 > 1) fuel curPos0 0 ⟨data, 0⟩ []
          [StreamOp.openIds]
        let error := r.1
        let ops := r.2.2.1 ++ [StreamOp.closeIds]
        if error = .Ok ∧ sizeConflict then (.OutputNotFilled, r.2.1, ops)
        else (error, r.2.1, ops)

/-- `IcsGetData` (libics_top.c, lines 307-320): read the whole body
(`IcsReadIds` opens the stream, reads one block, closes). -/
def IcsGetData (ics : Ics) (littleEndian : Bool) (destNull : Bool) (n : Nat)
    (data : List Nat) : Ics_Error × List Nat × List StreamOp :=
  if ¬ fmRdOk ics.FileMode then (.NotValidAction, [], [])
  else if n ≠ 0 ∧ ¬ destNull then
    let r := IcsReadIdsBlockM ics littleEndian ⟨data, 0⟩ n
    (r.1, r.2.1, [.openIds, .readBlock n, .closeIds])
  else (.Ok, [], [])

/-- Write `src` into `dst` starting at byte `start` (the `memcpy` of a read
line or imel into the caller's strided buffer). -/
def listBlit (dst : List Nat) (start : Nat) (src : List Nat) : List Nat :=
  (List.range src.length).foldl
    (fun acc k => acc.set (start + k) (src.getD k 0)) dst

/-- The two read loops of `IcsGetDataWithStrides` (libics_top.c, lines
563-613): read the body line by line; each line lands at the byte offset
`sum(curPos[i] * stride[i]) * imelSize` of the caller's buffer, imel by
imel when `stride[0] > 1` and contiguously otherwise. -/
def gdwsLoop (ics : Ics) (littleEndian : Bool) (p imelSize bufSize : Nat)
    (dim0 : Nat) (stride : List Nat) :
    Nat → List Nat → RState → List Nat → List StreamOp →
    Ics_Error × List Nat × List StreamOp × RState
  | 0, _, st, dest, ops => (.Ok, dest, ops, st)
  | fuel + 1, curPos, st, dest, ops =>
    let out := (List.range p).foldl
      (fun a i => if i = 0 then a else a + curPos.getD i 0 * stride.getD i 0 * imelSize) 0
    let r := IcsReadIdsBlockM ics littleEndian st bufSize
    let ops1 := ops ++ [StreamOp.readBlock bufSize]
    if r.1 ≠ .Ok then (r.1, dest, ops1, r.2.2)
    else
      let buf := r.2.1
      let dest2 :=
        if stride.getD 0 0 > 1 then
          (List.range dim0).foldl
            (fun acc j =>
              listBlit acc (out + j * stride.getD 0 0 * imelSize)
                ((buf.drop (j * imelSize)).take imelSize)) dest
        else listBlit dest out buf
      let sizes := (List.range p).map (fun i => (ics.Dim.getD i default).Size)
      let next := roiNextPos (List.replicate p 0) sizes (List.replicate p 1)
        (p - 1) curPos 1
      if next.2 then (.Ok, dest2, ops1, r.2.2)
      else
        gdwsLoop ics littleEndian p imelSize bufSize dim0 stride fuel next.1
          r.2.2 dest2 ops1

/-- `IcsGetDataWithStrides` (libics_top.c, lines 516-617): read the whole
body into a caller buffer with given output strides.  `dest0` is the
caller's buffer of `n` bytes; the result is the error code, the final
buffer contents, and the trace of stream operations. -/
def IcsGetDataWithStrides (ics : Ics) (littleEndian : Bool) (destNull : Bool)
    (dest0 : List Nat) (n : Nat) (stridePtr : Option (List Nat))
    (nDims : Nat) (data : List Nat) : Ics_Error × List Nat × List StreamOp :=
  if ¬ fmRdOk ics.FileMode then (.NotValidAction, dest0, [])
  else if n = 0 ∨ destNull then (.Ok, dest0, [])
  else
    let p := ics.Dimensions
    if nDims ≠ p then (.IllParameter, dest0, [])
    else
      let stride := stridePtr.getD (dimStrides ics p)
      let imelSize := IcsGetBytesPerSample ics
      let lastpixel := (List.range p).foldl
        (fun a i => a + ((ics.Dim.getD i default).Size - 1) * stride.getD i 0) 0
      if lastpixel * imelSize > n then (.IllParameter, dest0, [])
      else
        let bufSize := imelSize * (ics.Dim.getD 0 default).Size
        let fuel := 1 + (List.range p).foldl
          (fun a i => a * ((ics.Dim.getD i default).Size + 1)) 1
        let r := gdwsLoop ics littleEndian p imelSize bufSize
          (ics.Dim.getD 0 default).Size stride fuel (List.replicate p 0)
          ⟨data, 0⟩ dest0 [StreamOp.openIds]
        (r.1, r.2.1, r.2.2.1 ++ [StreamOp.closeIds])

/- ------------------------------------------------------------------ -/
/- Reference (spec-side) definitions used to compare against the code  -/
/- ------------------------------------------------------------------ -/

/-- The reference ROI gather of §8 property 4 of the spec: the output is,
in row-major order with dimension 0 fastest, the `imelSize`-byte sample at
imel index `sum_i (offset_i + k_i * sampling_i) * stride_i` for every
output tuple `k` with `k_i < ceil(size_i / sampling_i)`, taken from the
full get-data byte sequence. -/
def specROIGather (data : List Nat) (imelSize : Nat)
    (dims offset size sampling : List Nat) : List Nat :=
  let p := dims.length
  let counts := (List.range p).map
    (fun i => icsCeilDiv (size.getD i 0) (sampling.getD i 0))
  let stride := (List.range p).map
    (fun i => (List.range i).foldl (fun a k => a * dims.getD k 0) 1)
  let total := counts.foldl (fun a c => a * c) 1
  ((List.range total).map (fun j =>
    let imelIndex := (List.range p).foldl (fun a i =>
      let cntBelow := (List.range i).foldl (fun b l => b * counts.getD l 0) 1
      a + (offset.getD i 0 + ((j / cntBelow) % counts.getD i 0) *
        sampling.getD i 0) * stride.getD i 0) 0
    (data.drop (imelIndex * imelSize)).take imelSize)).flatten

/-- A read-mode handle with the u16 `[4, 3]` layout of seed scenario A/D of
the spec (byte order unspecified, i.e. all zeros, so the byte-order pass is
a no-op). -/
def roiSeedIcs : Ics :=
  { FileMode := .read, Dimensions := 2,
    Dim := [{ Size := 4 }, { Size := 3 }],
    Imel := { DataType := .uint16 } }

/- ------------------------------------------------------------------ -/
/- Claim theorems                                                      -/
/- ------------------------------------------------------------------ -/

/-- Claim C2 (evaluation at the failing input): the mode-string parser of
`IcsOpen` rejects the mode `"rl"` with `IcsErr_IllParameter`, although the
claim (and the code's own comment) says a single `l` flag is accepted and
merely disables the forced C locale; the guard `ICSTR(forceLocale,
IcsErr_IllParameter)` tests `forceLocale`, which is initialised to 1, so
the first `l` always fails.  For contrast, the plain mode `"r"` is
accepted. -/
theorem icsOpen_mode_l_rejected :
    icsOpenModeCheck ['r', 'l'] = .error .IllParameter ∧
    icsOpenModeCheck ['r'] =
      .ok { version := 0, forceName := false, forceLocale := true,
            reading := true, writing := false } := by
  constructor
  · rfl
  · rfl

/-- Claim C4: when the gzip reader reaches the end of the deflate stream
(`Z_STREAM_END`), a mismatch between the stored trailer CRC-32 and the
accumulated CRC, or between the stored trailer length and the total
decompressed length, is reported as `IcsErr_CorruptedStream` — never as
`DecompressionProblem` or `EndOfStream`. -/
theorem readZip_trailer_mismatch_corrupted (err : ZStatus) (tail : List Nat)
    (crc tot prev len : Nat) (he : err = .zStreamEnd)
    (hm : icsGetLong tail ≠ crc ∨ icsGetLong (tail.drop 4) ≠ tot) :
    icsReadZipFinish err tail crc tot prev len = .CorruptedStream ∧
    icsReadZipFinish err tail crc tot prev len ≠ .DecompressionProblem ∧
    icsReadZipFinish err tail crc tot prev len ≠ .EndOfStream := by
  subst he
  have h1 : icsReadZipFinish .zStreamEnd tail crc tot prev len =
      .CorruptedStream := by
    unfold icsReadZipFinish
    rcases hm with h | h
    · simp [h]
    · by_cases h2 : icsGetLong tail = crc
      · simp [h2, h]
      · simp [h2, h]
  refine ⟨h1, ?_, ?_⟩ <;> rw [h1] <;> decide

/-- Claim C4 witness: a stream end whose stored CRC (1) differs from the
accumulated CRC (2) yields `CorruptedStream`. -/
theorem readZip_trailer_mismatch_corrupted_witness :
    icsReadZipFinish .zStreamEnd [1, 0, 0, 0, 0, 0, 0, 0] 2 0 0 0 =
      .CorruptedStream ∧
    icsReadZipFinish .zStreamEnd [1, 0, 0, 0, 0, 0, 0, 0] 2 0 0 0 ≠
      .DecompressionProblem ∧
    icsReadZipFinish .zStreamEnd [1, 0, 0, 0, 0, 0, 0, 0] 2 0 0 0 ≠
      .EndOfStream :=
  readZip_trailer_mismatch_corrupted .zStreamEnd [1, 0, 0, 0, 0, 0, 0, 0]
    2 0 0 0 rfl (Or.inl (by decide))

/-- Claim C7: on a write-mode handle with a layout, no external source and
no buffer attached, `IcsSetData` with a length different from
`IcsGetDataSize` returns the non-fatal `IcsErr_FSizeConflict` and still
records the buffer and its length as the attached data source, leaving all
other fields of the handle untouched. -/
theorem setData_size_conflict_attaches (ics : Ics) (src : List Nat) (n : Nat)
    (hm : ics.FileMode = .write) (hs : ics.SrcFile = "")
    (hd : ics.Data = none) (hdim : ics.Dimensions ≠ 0)
    (hn : n ≠ IcsGetDataSize ics) :
    IcsSetData ics src n =
      (.FSizeConflict,
       { ics with Data := some src, DataLength := n, DataStrides := none }) := by
  unfold IcsSetData fmWdOk
  simp [hm, hs, hd, hdim, hn]

/-- Claim C7 witness: a u8 `[3]` layout expects 3 bytes; attaching 2 bytes
returns `FSizeConflict` but attaches the buffer. -/
theorem setData_size_conflict_attaches_witness :
    IcsSetData
      { FileMode := .write, Dimensions := 1, Dim := [{ Size := 3 }],
        Imel := { DataType := .uint8 } } [5, 6] 2 =
      (.FSizeConflict,
       { FileMode := .write, Dimensions := 1, Dim := [{ Size := 3 }],
         Imel := { DataType := .uint8 }, Data := some [5, 6],
         DataLength := 2, DataStrides := none }) :=
  setData_size_conflict_attaches
    { FileMode := .write, Dimensions := 1, Dim := [{ Size := 3 }],
      Imel := { DataType := .uint8 } } [5, 6] 2 rfl rfl rfl
    (by decide) (by decide)

/-- Claim C9: on a region whose length is a multiple of the sample width,
`IcsReorderIds` with a declared vector equal to the host order, or all
zero, returns `Ok` and leaves the buffer unchanged. -/
theorem reorderIds_noop (buf src : List Nat) (bytes : Nat) (le : Bool)
    (hlen : buf.length % bytes = 0)
    (hsrc : (∀ i, i < bytes →
               src.getD i 0 = (IcsFillByteOrder bytes le).getD i 0) ∨
            (∀ i, i < bytes → src.getD i 0 = 0)) :
    IcsReorderIds buf src bytes le = (.Ok, buf) := by
  unfold IcsReorderIds
  rw [if_neg (by simp [hlen])]
  rcases hsrc with h | h
  · have hdiff : reorderDifferent src bytes le = false := by
      unfold reorderDifferent
      simp only [List.any_eq_false, List.mem_range, decide_eq_false_iff_not]
      intro i hi
      simpa using h i hi
    rw [hdiff]
    simp
  · rcases Nat.eq_zero_or_pos bytes with hb | hb
    · have hdiff : reorderDifferent src bytes le = false := by
        subst hb
        rfl
      rw [hdiff]
      simp
    · have hemp : reorderEmpty src bytes = true := by
        unfold reorderEmpty
        simp only [List.any_eq_true, List.mem_range]
        exact ⟨0, hb, by simpa using h 0 hb⟩
      rw [hemp]
      simp

/-- Claim C9 witness: a 4-byte u16 region with the declared order equal to
the little-endian host order `[1, 2]` is left unchanged. -/
theorem reorderIds_noop_witness :
    IcsReorderIds [9, 8, 7, 6] [1, 2] 2 true = (.Ok, [9, 8, 7, 6]) :=
  reorderIds_noop [9, 8, 7, 6] [1, 2] 2 true (by decide)
    (Or.inl (by decide))

/-- Claim C10: in read mode, `IcsGetData`, `IcsGetROIData` and
`IcsGetDataWithStrides` called with a zero byte count or a NULL destination
return `IcsErr_Ok` immediately: the stream-operation trace is empty (the
data stream is never opened, nothing is read or skipped) and nothing is
written to the destination. -/
theorem getData_zero_or_null_noop (ics : Ics) (le : Bool) (destNull : Bool)
    (n : Nat) (data dest0 : List Nat)
    (offs szs smps stridePtr : Option (List Nat)) (nDims : Nat)
    (hm : ics.FileMode = .read) (hz : n = 0 ∨ destNull = true) :
    IcsGetData ics le destNull n data = (.Ok, [], []) ∧
    IcsGetROIData ics le offs szs smps destNull n data = (.Ok, [], []) ∧
    IcsGetDataWithStrides ics le destNull dest0 n stridePtr nDims data =
      (.Ok, dest0, []) := by
  have hrd : fmRdOk ics.FileMode = true := by simp [fmRdOk, hm]
  refine ⟨?_, ?_, ?_⟩
  · unfold IcsGetData
    rcases hz with h | h <;> simp [hrd, h]
  · unfold IcsGetROIData
    rcases hz with h | h <;> simp [hrd, h]
  · unfold IcsGetDataWithStrides
    rcases hz with h | h <;> simp [hrd, h]

/-- Claim C10 witness: on the seed read handle, a zero-length `IcsGetData`,
`IcsGetROIData` and `IcsGetDataWithStrides` all return `Ok` with an empty
operation trace. -/
theorem getData_zero_or_null_noop_witness :
    IcsGetData roiSeedIcs true false 0 [1, 2] = (.Ok, [], []) ∧
    IcsGetROIData roiSeedIcs true none none none false 0 [1, 2] =
      (.Ok, [], []) ∧
    IcsGetDataWithStrides roiSeedIcs true false [9, 9] 0 none 2 [1, 2] =
      (.Ok, [9, 9], []) :=
  getData_zero_or_null_noop roiSeedIcs true false 0 [1, 2] [9, 9]
    none none none none 2 rfl (Or.inl rfl)

/-- A freshly opened write-mode handle (`IcsOpen` with mode `"w"` runs
`IcsInit` and sets the write file mode). -/
def freshWriteIcs : Ics := { FileMode := .write }

/-- Claim C3 counterexample: after a successful `IcsSetLayout` on a
write-mode handle, the default display label of dimension 0 is
`"x-position"`, which differs from its default order name `"x"` — the
claim that default labels equal default order names fails (the code
installs `ICSKEY_LABEL`, not `ICSKEY_ORDER`, as labels). -/
theorem setLayout_label_ne_order :
    ((IcsSetLayout freshWriteIcs .uint16 2 [4, 3]).2.Dim.getD 0 default).Label =
      "x-position" ∧
    ((IcsSetLayout freshWriteIcs .uint16 2 [4, 3]).2.Dim.getD 0 default).Order =
      "x" ∧
    ((IcsSetLayout freshWriteIcs .uint16 2 [4, 3]).2.Dim.getD 0 default).Label ≠
      ((IcsSetLayout freshWriteIcs .uint16 2 [4, 3]).2.Dim.getD 0 default).Order := by
  refine ⟨rfl, rfl, ?_⟩
  decide

/-- Claim C3 (amended): after `IcsSetLayout` succeeds in write mode, each
dimension gets the default order name from the canonical sequence `"x"`,
`"y"`, `"z"`, `"t"`, `"probe"` and then `"dim_i"`, and the default display
label from the canonical label sequence `"x-position"`, `"y-position"`,
`"z-position"`, `"time"`, `"probe"` and then `"dim_i"` (so label equals
order name only from the fifth dimension on); the requested sizes are
stored. -/
theorem setLayout_defaults (ics : Ics) (dt : Ics_DataType) (nDims : Nat)
    (dims : List Nat) (hm : ics.FileMode = .write) (hd : nDims ≤ ICS_MAXDIM) :
    (IcsSetLayout ics dt nDims dims).1 = .Ok ∧
    ∀ i, i < nDims →
      ((IcsSetLayout ics dt nDims dims).2.Dim.getD i default).Order =
        defaultOrderName i ∧
      ((IcsSetLayout ics dt nDims dims).2.Dim.getD i default).Label =
        defaultDimLabel i ∧
      ((IcsSetLayout ics dt nDims dims).2.Dim.getD i default).Size =
        dims.getD i 0 := by
  have hwd : fmWdOk ics.FileMode = true := by simp [fmWdOk, hm]
  have hlt : ¬ nDims > ICS_MAXDIM := by omega
  unfold IcsSetLayout
  rw [if_neg (by simp [hwd]), if_neg hlt]
  refine ⟨rfl, ?_⟩
  intro i hi
  have hi10 : i < ICS_MAXDIM := lt_of_lt_of_le hi hd
  have hmap :
      ((List.range ICS_MAXDIM).map (fun i =>
        if i < nDims then
          { Size := dims.getD i 0
            Order := defaultOrderName i
            Label := defaultDimLabel i : Ics_DimPar }
        else ics.Dim.getD i default)).getD i default =
      (if i < nDims then
        { Size := dims.getD i 0
          Order := defaultOrderName i
          Label := defaultDimLabel i : Ics_DimPar }
      else ics.Dim.getD i default) := by
    rw [List.getD_eq_getElem?_getD, List.getElem?_map, List.getElem?_range hi10]
    rfl
  simp only [hmap, if_pos hi]
  exact ⟨trivial, trivial, trivial⟩

/-- Claim C3 witness: on a fresh write handle, `IcsSetLayout` with two
dimensions installs order `"x"` with label `"x-position"` for dimension
0. -/
theorem setLayout_defaults_witness :
    (IcsSetLayout freshWriteIcs .uint16 2 [4, 3]).1 = .Ok ∧
    ∀ i, i < 2 →
      ((IcsSetLayout freshWriteIcs .uint16 2 [4, 3]).2.Dim.getD i default).Order =
        defaultOrderName i ∧
      ((IcsSetLayout freshWriteIcs .uint16 2 [4, 3]).2.Dim.getD i default).Label =
        defaultDimLabel i ∧
      ((IcsSetLayout freshWriteIcs .uint16 2 [4, 3]).2.Dim.getD i default).Size =
        [4, 3].getD i 0 :=
  setLayout_defaults freshWriteIcs .uint16 2 [4, 3] rfl (by decide)

/-- zlib's incremental CRC is compositional: accumulating over two
concatenated pieces equals accumulating over the whole. -/
theorem zlibCrc32_append (c : Nat) (a b : List Nat) :
    zlibCrc32 (zlibCrc32 c a) b = zlibCrc32 c (a ++ b) := by
  unfold zlibCrc32
  rw [List.foldl_append]
  congr 1
  congr 1
  rw [Nat.xor_assoc, Nat.xor_self, Nat.xor_zero]

/-- The chunked CRC/byte-count loop of `IcsWriteZip` computes the CRC-32 of
the whole input and counts every input byte. -/
theorem zipCrcLoop_eq_aux :
    ∀ (m : Nat) (rest : List Nat) (crc count : Nat), rest.length ≤ m →
      zipCrcLoop crc count rest = (zlibCrc32 crc rest, count + rest.length) := by
  intro m
  induction m with
  | zero =>
    intro rest crc count hle
    have hnil : rest = [] := List.length_eq_zero.mp (Nat.le_zero.mp hle)
    subst hnil
    unfold zipCrcLoop
    simp
  | succ m ih =>
    intro rest crc count hle
    unfold zipCrcLoop
    by_cases hdone : (rest.drop ICS_BUF_SIZE).isEmpty
    · rw [dif_pos hdone]
      have hdropnil : rest.drop ICS_BUF_SIZE = [] := List.isEmpty_iff.mp hdone
      have htake : rest.take ICS_BUF_SIZE = rest := by
        have := List.take_append_drop ICS_BUF_SIZE rest
        rwa [hdropnil, List.append_nil] at this
      rw [htake]
    · rw [dif_neg hdone]
      have hlt : (rest.drop ICS_BUF_SIZE).length ≤ m := by
        rw [List.length_drop]
        have : 0 < ICS_BUF_SIZE := by decide
        omega
      rw [ih _ _ _ hlt, zlibCrc32_append]
      have hsplit := List.take_append_drop ICS_BUF_SIZE rest
      rw [hsplit]
      have hlen : (rest.take ICS_BUF_SIZE).length +
          (rest.drop ICS_BUF_SIZE).length = rest.length := by
        rw [← List.length_append, hsplit]
      rw [Prod.mk.injEq]
      exact ⟨rfl, by omega⟩

/-- The chunked loop over the whole input. -/
theorem zipCrcLoop_eq (rest : List Nat) (crc count : Nat) :
    zipCrcLoop crc count rest = (zlibCrc32 crc rest, count + rest.length) :=
  zipCrcLoop_eq_aux rest.length rest crc count (Nat.le_refl _)

/-- Claim C6: a successful `IcsWriteZip` writes, immediately after the
compressed deflate stream, exactly eight trailer bytes: the CRC-32 of the
uncompressed input in little-endian byte order, then the input length
reduced modulo 2^32 in little-endian byte order. -/
theorem writeZip_trailer (deflate : List Nat → List Nat) (inBuf : List Nat)
    (osCode : Nat) :
    IcsWriteZip deflate inBuf osCode =
      gzipHeader osCode ++ deflate inBuf ++
        (icsPutLong (zlibCrc32 0 inBuf) ++
         icsPutLong (inBuf.length % 4294967296)) ∧
    (icsPutLong (zlibCrc32 0 inBuf) ++
      icsPutLong (inBuf.length % 4294967296)).length = 8 := by
  constructor
  · unfold IcsWriteZip
    rw [zipCrcLoop_eq]
    have hmask : inBuf.length &&& 0xFFFFFFFF = inBuf.length % 4294967296 := by
      have h32 : (0xFFFFFFFF : Nat) = 2 ^ 32 - 1 := by norm_num
      have := Nat.and_pow_two_sub_one_eq_mod inBuf.length 32
      rw [h32]
      simpa using this
    simp [hmask]
  · simp [icsPutLong]

/-- A path never equals itself with `".tmp"` appended. -/
theorem str_ne_append_tmp (s : String) : s ≠ s ++ ".tmp" := by
  intro h
  have hlen := congrArg String.length h
  rw [String.length_append] at hlen
  have h4 : (".tmp" : String).length = 4 := rfl
  omega

/-- Claim C8: during close of an update-mode version-2 dataset whose body
is embedded in the `.ics` file, if the header rewrite or the body copy
fails after the rename of the original to its `.tmp` sibling succeeded,
the rollback deletes the partial output at the original path and renames
the temporary back, so the original path again holds the original contents
byte-for-byte (and the temporary is gone); the returned error is not
`Ok`. -/
theorem closeUpdate_rollback (ics : Ics) (env : UpdateEnv) (fs0 : FS)
    (c : List Nat) (hv : ics.Version = 2) (hsrc : ics.SrcFile = ics.Filename)
    (horig : fsGet fs0 ics.Filename = some c)
    (hfail : env.writeIcsFails = true ∨ env.copyFails = true) :
    (icsCloseUpdate ics env fs0).1 ≠ .Ok ∧
    fsGet (icsCloseUpdate ics env fs0).2 ics.Filename = some c ∧
    fsGet (icsCloseUpdate ics env fs0).2 (ics.Filename ++ ".tmp") = none := by
  have hne : ics.Filename ≠ ics.Filename ++ ".tmp" := str_ne_append_tmp _
  have hne2 : ics.Filename ++ ".tmp" ≠ ics.Filename := Ne.symm hne
  rcases hfail with hw | hc
  · cases hwp : env.writeIcsLeftover with
    | none =>
      unfold icsCloseUpdate icsWriteIcsStep icsCopyIdsStep fsRenameOk
        fsRename fsRemove fsSet fsGet
      unfold fsGet at horig
      simp [hv, hsrc, horig, hw, hwp, hne, hne2]
    | some pb =>
      unfold icsCloseUpdate icsWriteIcsStep icsCopyIdsStep fsRenameOk
        fsRename fsRemove fsSet fsGet
      unfold fsGet at horig
      simp [hv, hsrc, horig, hw, hwp, hne, hne2]
  · by_cases hw : env.writeIcsFails = true
    · cases hwp : env.writeIcsLeftover with
      | none =>
        unfold icsCloseUpdate icsWriteIcsStep icsCopyIdsStep fsRenameOk
          fsRename fsRemove fsSet fsGet
        unfold fsGet at horig
        simp [hv, hsrc, horig, hw, hwp, hne, hne2]
      | some pb =>
        unfold icsCloseUpdate icsWriteIcsStep icsCopyIdsStep fsRenameOk
          fsRename fsRemove fsSet fsGet
        unfold fsGet at horig
        simp [hv, hsrc, horig, hw, hwp, hne, hne2]
    · have hw2 : env.writeIcsFails = false := by
        cases h2 : env.writeIcsFails
        · rfl
        · exact absurd h2 hw
      unfold icsCloseUpdate icsWriteIcsStep icsCopyIdsStep fsRenameOk
        fsRename fsRemove fsSet fsGet
      unfold fsGet at horig
      simp [hv, hsrc, horig, hw2, hc, hne, hne2]

/-- A concrete update-mode version-2 handle whose body is embedded in
`a.ics`. -/
def updateSeedIcs : Ics :=
  { FileMode := .update, Version := 2, Filename := "a.ics",
    SrcFile := "a.ics" }

/-- A one-file file system holding the original `a.ics` contents. -/
def updateSeedFS : FS :=
  fun p => if p = "a.ics" then some [7, 8] else none

/-- Claim C8 witness: with a failing header rewrite, the close of the
update transaction restores `a.ics` to its original two bytes and removes
the temporary. -/
theorem closeUpdate_rollback_witness :
    (icsCloseUpdate updateSeedIcs { writeIcsFails := true } updateSeedFS).1 ≠
      .Ok ∧
    fsGet (icsCloseUpdate updateSeedIcs { writeIcsFails := true }
      updateSeedFS).2 updateSeedIcs.Filename = some [7, 8] ∧
    fsGet (icsCloseUpdate updateSeedIcs { writeIcsFails := true }
      updateSeedFS).2 (updateSeedIcs.Filename ++ ".tmp") = none :=
  closeUpdate_rollback updateSeedIcs { writeIcsFails := true } updateSeedFS
    [7, 8] rfl rfl rfl (Or.inl rfl)

/-- A fold of positional writes preserves the buffer length. -/
theorem foldl_set_length (g v : Nat → Nat) :
    ∀ (L : List Nat) (start : List Nat),
      (L.foldl (fun acc i => acc.set (g i) (v i)) start).length =
        start.length := by
  intro L
  induction L with
  | nil => intro start; rfl
  | cons a t ih =>
    intro start
    rw [List.foldl_cons, ih, List.length_set]

/-- Folding the writes `acc[i] := v i` over `i < m` fills positions below
`m` with `v` and leaves the rest of the start buffer. -/
theorem foldl_set_range_getD (v : Nat → Nat) :
    ∀ (m : Nat) (start : List Nat), m ≤ start.length → ∀ k,
      ((List.range m).foldl (fun acc i => acc.set i (v i)) start).getD k 0 =
        if k < m then v k else start.getD k 0 := by
  intro m
  induction m with
  | zero =>
    intro start _ k
    simp
  | succ m ih =>
    intro start hm k
    rw [List.range_succ, List.foldl_append, List.foldl_cons, List.foldl_nil]
    have hlenm :
        ((List.range m).foldl (fun acc i => acc.set i (v i)) start).length =
          start.length := by
      have := foldl_set_length (fun i => i) v (List.range m) start
      simpa using this
    by_cases hk : k = m
    · subst hk
      rw [List.getD_eq_getElem?_getD,
        List.getElem?_set_self (by rw [hlenm]; omega)]
      simp
    · rw [List.getD_eq_getElem?_getD, List.getElem?_set_ne (Ne.symm hk),
        ← List.getD_eq_getElem?_getD, ih start (by omega) k]
      by_cases hk2 : k < m
      · rw [if_pos hk2, if_pos (by omega)]
      · rw [if_neg hk2, if_neg (by omega)]

/-- Entry `i < bytes` of the identity byte-order vector is `1 + i`. -/
theorem idByteOrder_getD (bytes i : Nat) (h : i < bytes) :
    (idByteOrder bytes).getD i 0 = 1 + i := by
  unfold idByteOrder
  rw [List.getD_eq_getElem?_getD, List.getElem?_map, List.getElem?_range h]
  rfl

/-- With the identity destination order and a full chunk available,
`reorderImel` produces a chunk of exactly `bytes` bytes. -/
theorem reorderImel_id_length (buf : List Nat) (base : Nat) (src : List Nat)
    (bytes : Nat) (h : base + bytes ≤ buf.length) :
    (reorderImel buf base src (idByteOrder bytes) bytes).length = bytes := by
  unfold reorderImel
  rw [foldl_set_length (fun i => (idByteOrder bytes).getD i 0 - 1)
    (fun i => buf.getD (base + (src.getD i 0 - 1)) 0)]
  rw [List.length_take, List.length_drop]
  omega

/-- With the identity destination order, byte `k` of the `reorderImel`
result is the source byte selected by `src` at position `k`. -/
theorem reorderImel_id_getD (buf : List Nat) (base : Nat) (src : List Nat)
    (bytes k : Nat) (hlen : base + bytes ≤ buf.length) (hk : k < bytes) :
    (reorderImel buf base src (idByteOrder bytes) bytes).getD k 0 =
      buf.getD (base + (src.getD k 0 - 1)) 0 := by
  unfold reorderImel
  have hext :
      (List.range bytes).foldl
        (fun acc i =>
          acc.set ((idByteOrder bytes).getD i 0 - 1)
            (buf.getD (base + (src.getD i 0 - 1)) 0))
        ((buf.drop base).take bytes) =
      (List.range bytes).foldl
        (fun acc i => acc.set i (buf.getD (base + (src.getD i 0 - 1)) 0))
        ((buf.drop base).take bytes) := by
    apply List.foldl_ext
    intro acc i hi
    rw [idByteOrder_getD bytes i (List.mem_range.mp hi)]
    congr 1
    omega
  rw [hext, foldl_set_range_getD _ bytes _ (by
      rw [List.length_take, List.length_drop]
      omega) k, if_pos hk]

/-- Length and entries of a flattened sequence of equal-length chunks. -/
theorem flatten_chunks (f : Nat → List Nat) (bytes : Nat) :
    ∀ (m : Nat), (∀ j, j < m → (f j).length = bytes) →
      (((List.range m).map f).flatten).length = m * bytes ∧
      (∀ j t, j < m → t < bytes →
        (((List.range m).map f).flatten).getD (j * bytes + t) 0 =
          (f j).getD t 0) := by
  intro m
  induction m with
  | zero =>
    intro _
    constructor
    · simp
    · intro j t hj _
      omega
  | succ m ih =>
    intro hf
    have ihm := ih (fun j hj => hf j (Nat.lt_succ_of_lt hj))
    rw [List.range_succ, List.map_append, List.flatten_append]
    constructor
    · rw [List.length_append, ihm.1]
      simp [hf m (Nat.lt_succ_self m), Nat.succ_mul]
    · intro j t hj ht
      rcases Nat.lt_succ_iff_lt_or_eq.mp hj with hj2 | hj2
      · have h1 : j * bytes + t < (j + 1) * bytes := by
          rw [Nat.succ_mul]
          omega
        have h2 : (j + 1) * bytes ≤ m * bytes :=
          Nat.mul_le_mul_right _ hj2
        have h3 : j * bytes + t <
            (((List.range m).map f).flatten).length := by
          rw [ihm.1]
          omega
        rw [List.getD_eq_getElem?_getD, List.getElem?_append_left h3,
          ← List.getD_eq_getElem?_getD, ihm.2 j t hj2 ht]
      · subst hj2
        have h3 : (((List.range j).map f).flatten).length ≤ j * bytes + t := by
          rw [ihm.1]
          omega
        rw [List.getD_eq_getElem?_getD, List.getElem?_append_right h3, ihm.1]
        have h4 : j * bytes + t - j * bytes = t := by omega
        rw [h4]
        simp

/-- `getD` at an in-range index is the list element. -/
theorem getD_of_lt (l : List Nat) (n : Nat) (h : n < l.length) :
    l.getD n 0 = l[n] := by
  rw [List.getD_eq_getElem?_getD, List.getElem?_eq_getElem h]
  rfl

/-- Characterisation of the whole-buffer rewrite on a little-endian host
(identity destination order): the length is preserved and byte `t` of imel
`j` is the source byte `src[t]-1` of imel `j` of the input. -/
theorem reorderBody_spec (buf src : List Nat) (bytes : Nat)
    (hlen : buf.length % bytes = 0) :
    (reorderBody buf src (idByteOrder bytes) bytes).length = buf.length ∧
    ∀ j t, j < buf.length / bytes → t < bytes →
      (reorderBody buf src (idByteOrder bytes) bytes).getD (j * bytes + t) 0 =
        buf.getD (j * bytes + (src.getD t 0 - 1)) 0 := by
  have hbl : buf.length / bytes * bytes = buf.length :=
    Nat.div_mul_cancel (Nat.dvd_of_mod_eq_zero hlen)
  have hf : ∀ j, j < buf.length / bytes →
      (reorderImel buf (j * bytes) src (idByteOrder bytes) bytes).length =
        bytes := by
    intro j hj
    apply reorderImel_id_length
    have : (j + 1) * bytes ≤ buf.length / bytes * bytes :=
      Nat.mul_le_mul_right _ (Nat.succ_le_of_lt hj)
    rw [Nat.succ_mul] at this
    omega
  have hchunks := flatten_chunks
    (fun j => reorderImel buf (j * bytes) src (idByteOrder bytes) bytes)
    bytes (buf.length / bytes) hf
  constructor
  · unfold reorderBody
    rw [hchunks.1, hbl]
  · intro j t hj ht
    unfold reorderBody
    rw [hchunks.2 j t hj ht]
    apply reorderImel_id_getD
    · have : (j + 1) * bytes ≤ buf.length / bytes * bytes :=
        Nat.mul_le_mul_right _ (Nat.succ_le_of_lt hj)
      rw [Nat.succ_mul] at this
      omega
    · exact ht

/-- Claim C5 counterexample: the claim fails for the 4-cycle byte-order
vector `[2, 3, 4, 1]` on a little-endian host: rewriting the one-sample
buffer `[0, 1, 2, 3]` of width 4 twice with the same vector yields
`[2, 3, 0, 1]`, not the original contents. -/
theorem reorder_twice_not_id :
    (IcsReorderIds [0, 1, 2, 3] [2, 3, 4, 1] 4 true).1 = .Ok ∧
    (IcsReorderIds (IcsReorderIds [0, 1, 2, 3] [2, 3, 4, 1] 4 true).2
      [2, 3, 4, 1] 4 true).2 = [2, 3, 0, 1] ∧
    (IcsReorderIds (IcsReorderIds [0, 1, 2, 3] [2, 3, 4, 1] 4 true).2
      [2, 3, 4, 1] 4 true).2 ≠ [0, 1, 2, 3] := by
  refine ⟨rfl, rfl, ?_⟩
  decide


/-- Claim C5 (amended): on a little-endian host, for every buffer whose
length is a multiple of the sample width (the width within the engine's
`ICS_MAX_IMEL_SIZE` bound) and every in-range source byte-order vector
that acts involutively (`src[src[i]-1] = i+1` for all `i < width` — which
holds for the identity and full-reversal vectors that occur in practice),
rewriting twice with the same source vector restores the original buffer,
and rewriting once with the identity vector `[1, ..., width]` leaves the
buffer unchanged.  (Unrestricted, the claim is false: see the 4-cycle
counterexample.) -/
theorem reorder_involution (buf src : List Nat) (bytes : Nat)
    (hb : bytes ≤ ICS_MAX_IMEL_SIZE)
    (hlen : buf.length % bytes = 0)
    (hrange : ∀ i, i < bytes → 1 ≤ src.getD i 0 ∧ src.getD i 0 ≤ bytes)
    (hinv : ∀ i, i < bytes → src.getD (src.getD i 0 - 1) 0 = i + 1) :
    (IcsReorderIds buf src bytes true).1 = .Ok ∧
    IcsReorderIds (IcsReorderIds buf src bytes true).2 src bytes true =
      (.Ok, buf) ∧
    IcsReorderIds buf (idByteOrder bytes) bytes true = (.Ok, buf) := by
  have hfill : IcsFillByteOrder bytes true = idByteOrder bytes := by
    have hnb : ¬ bytes > ICS_MAX_IMEL_SIZE := by omega
    simp [IcsFillByteOrder, idByteOrder, hnb]
  have hdiff_id : reorderDifferent (idByteOrder bytes) bytes true = false := by
    unfold reorderDifferent
    rw [hfill]
    simp [List.any_eq_false]
  have hid : IcsReorderIds buf (idByteOrder bytes) bytes true = (.Ok, buf) := by
    unfold IcsReorderIds
    rw [if_neg (by simp [hlen]), hdiff_id]
    simp
  by_cases hdiff : reorderDifferent src bytes true = true
  · have hbpos : 0 < bytes := by
      by_contra hz
      have h0 : bytes = 0 := by omega
      subst h0
      exact absurd hdiff (by unfold reorderDifferent; simp)
    have hemp : reorderEmpty src bytes = false := by
      unfold reorderEmpty
      simp only [List.any_eq_false, List.mem_range, decide_eq_false_iff_not]
      intro i hi
      have h1 := (hrange i hi).1
      simp only [List.getD_eq_getElem?_getD, decide_eq_true_eq] at h1 ⊢
      omega
    have happ : ∀ b : List Nat, b.length % bytes = 0 →
        IcsReorderIds b src bytes true =
          (.Ok, reorderBody b src (idByteOrder bytes) bytes) := by
      intro b hbl
      unfold IcsReorderIds
      rw [if_neg (by simp [hbl]), hdiff, hemp, hfill]
      simp
    have hbl : buf.length / bytes * bytes = buf.length :=
      Nat.div_mul_cancel (Nat.dvd_of_mod_eq_zero hlen)
    have hout1 := happ buf hlen
    have hs1 := reorderBody_spec buf src bytes hlen
    have hlen1 : (reorderBody buf src (idByteOrder bytes) bytes).length %
        bytes = 0 := by
      rw [hs1.1]
      exact hlen
    have hout2 := happ (reorderBody buf src (idByteOrder bytes) bytes) hlen1
    have hs2 := reorderBody_spec
      (reorderBody buf src (idByteOrder bytes) bytes) src bytes hlen1
    have hdiv1 : (reorderBody buf src (idByteOrder bytes) bytes).length /
        bytes = buf.length / bytes := by
      rw [hs1.1]
    have hfinal : reorderBody (reorderBody buf src (idByteOrder bytes) bytes)
        src (idByteOrder bytes) bytes = buf := by
      apply List.ext_getElem
      · rw [hs2.1, hs1.1]
      · intro n h1 h2
        have hj : n / bytes < buf.length / bytes :=
          (Nat.div_lt_iff_lt_mul hbpos).mpr (by omega)
        have ht : n % bytes < bytes := Nat.mod_lt _ hbpos
        have hsplit : n / bytes * bytes + n % bytes = n := by
          have hdm := Nat.div_add_mod n bytes
          rw [Nat.mul_comm] at hdm
          exact hdm
        rw [← getD_of_lt _ n h1, ← getD_of_lt _ n h2]
        conv_lhs => rw [← hsplit]
        conv_rhs => rw [← hsplit]
        rw [hs2.2 (n / bytes) (n % bytes) (by rw [hdiv1]; exact hj) ht]
        have hst : src.getD (n % bytes) 0 - 1 < bytes := by
          have := hrange _ ht
          omega
        rw [hs1.2 (n / bytes) (src.getD (n % bytes) 0 - 1) hj hst]
        rw [hinv _ ht]
        simp
    refine ⟨?_, ?_, hid⟩
    · rw [hout1]
    · rw [hout1]
      show IcsReorderIds (reorderBody buf src (idByteOrder bytes) bytes)
        src bytes true = (.Ok, buf)
      rw [hout2, hfinal]
  · have hdiff2 : reorderDifferent src bytes true = false := by
      cases h2 : reorderDifferent src bytes true
      · rfl
      · exact absurd h2 hdiff
    have hout : IcsReorderIds buf src bytes true = (.Ok, buf) := by
      unfold IcsReorderIds
      rw [if_neg (by simp [hlen]), hdiff2]
      simp
    refine ⟨by rw [hout], ?_, hid⟩
    rw [hout]
    show IcsReorderIds buf src bytes true = (.Ok, buf)
    exact hout

/-- Claim C5 witness: the width-2 swap vector `[2, 1]` is involutive, so a
double rewrite of `[10, 20, 30, 40]` restores it, and the identity vector
`[1, 2]` is a no-op. -/
theorem reorder_involution_witness :
    (IcsReorderIds [10, 20, 30, 40] [2, 1] 2 true).1 = .Ok ∧
    IcsReorderIds (IcsReorderIds [10, 20, 30, 40] [2, 1] 2 true).2
      [2, 1] 2 true = (.Ok, [10, 20, 30, 40]) ∧
    IcsReorderIds [10, 20, 30, 40] (idByteOrder 2) 2 true =
      (.Ok, [10, 20, 30, 40]) :=
  reorder_involution [10, 20, 30, 40] [2, 1] 2 (by decide) (by decide)
    (by decide) (by decide)

/-- Claim C1 (evaluation at the failing input): on the u16 `[4, 3]` layout
holding bytes 0..23 (seed scenario D), `IcsGetROIData` with
`sampling = [2, 1]` returns `Ok` but delivers
`[4, 5, 4, 5, 12, 13, 12, 13, 20, 21, 20, 21]` — for every line it copies
the sample at byte offset `p * imelSize = 4` of the line buffer, because
the copy uses the stale loop index `i = p` — instead of the bytes the
claim's gather arithmetic (`offset + k * sampling` per dimension, i.e.
`specROIGather`) selects, which are
`[0, 1, 4, 5, 8, 9, 12, 13, 16, 17, 20, 21]`.  The `sampling[0] = 1`
branch (seed scenario C) does agree with the gather arithmetic. -/
theorem roiData_subsampling_bug :
    IcsGetROIData roiSeedIcs true none none (some [2, 1]) false 12
        (List.range 24) =
      (.Ok, [4, 5, 4, 5, 12, 13, 12, 13, 20, 21, 20, 21],
       [.openIds, .readBlock 8, .readBlock 8, .readBlock 8, .closeIds]) ∧
    specROIGather (List.range 24) 2 [4, 3] [0, 0] [4, 3] [2, 1] =
      [0, 1, 4, 5, 8, 9, 12, 13, 16, 17, 20, 21] ∧
    (IcsGetROIData roiSeedIcs true none none (some [2, 1]) false 12
        (List.range 24)).2.1 ≠
      specROIGather (List.range 24) 2 [4, 3] [0, 0] [4, 3] [2, 1] ∧
    (IcsGetROIData roiSeedIcs true (some [1, 0]) (some [2, 3]) (some [1, 1])
        false 12 (List.range 24)).2.1 =
      specROIGather (List.range 24) 2 [4, 3] [1, 0] [2, 3] [1, 1] := by
  refine ⟨by decide, by decide, by decide, by decide⟩
